import Mathlib

/-!
Verification of the devkb document ingestion and hybrid retrieval pipeline.

The definitions below are a shallow embedding of `app/services/documents.py`,
`app/services/search.py`, `app/services/embeddings.py` and the parts of
`app/database.py` they use.  Python strings are Lean `String`s; the Python
string primitives the code relies on (`split`, `strip`, `lower`, `in`,
`startswith`, negative slices) are re-implemented character-by-character so
that every definition is executable by the kernel.  Floating point similarity
scores are modelled as rationals.  External collaborators (the ChromaDB
vector index, the sentence-transformers model, the LLM categorizer) enter the
model as explicit oracle parameters; everything on this side of those
boundaries is translated from the source.
-/

set_option maxRecDepth 40000

/-! ### Python string primitives (character-level) -/

/-- Python `str.lower()` (ASCII case folding, as used by the source). -/
def pyLower (s : String) : String := String.mk (s.data.map Char.toLower)

/-- Model of `listIsPre a b` : the list `a` is a leading run of `b`. -/
def listIsPre : List Char → List Char → Bool
  | [], _ => true
  | _ :: _, [] => false
  | a :: as, b :: bs => a == b && listIsPre as bs

/-- Model of `listHasSub needle hay` : `needle` occurs contiguously inside `hay`. -/
def listHasSub (needle : List Char) : List Char → Bool
  | [] => listIsPre needle []
  | c :: cs => listIsPre needle (c :: cs) || listHasSub needle cs

/-- Python `needle in hay` for strings. -/
def strHasSub (hay needle : String) : Bool := listHasSub needle.data hay.data

/-- Python `s.startswith(p)`. -/
def pyStartsWith (s p : String) : Bool := listIsPre p.data s.data

/-- Drop trailing whitespace characters. -/
def dropTrailWs (l : List Char) : List Char :=
  (l.reverse.dropWhile Char.isWhitespace).reverse

/-- Python `s.strip()`. -/
def pyStrip (s : String) : String :=
  String.mk (dropTrailWs (s.data.dropWhile Char.isWhitespace))

/-- Worker for `splitNL`. -/
def splitNLGo : List Char → List Char → List String
  | [], acc => [String.mk acc.reverse]
  | c :: cs, acc =>
    if c = '\n' then String.mk acc.reverse :: splitNLGo cs []
    else splitNLGo cs (c :: acc)

/-- Python `s.split("\n")`: always at least one piece, empty pieces kept. -/
def splitNL (s : String) : List String := splitNLGo s.data []

/-- Worker for `pySplitWs`. -/
def splitWsGo : List Char → List Char → List String
  | [], acc => if acc.isEmpty then [] else [String.mk acc.reverse]
  | c :: cs, acc =>
    if c.isWhitespace then
      (if acc.isEmpty then splitWsGo cs [] else String.mk acc.reverse :: splitWsGo cs [])
    else splitWsGo cs (c :: acc)

/-- Python `s.split()` (split on whitespace runs, empty pieces discarded). -/
def pySplitWs (s : String) : List String := splitWsGo s.data []

/-- Sentence separators of `SearchService._extract_highlights`:
the regex class `[.!?\n]`. -/
def isSentSep (c : Char) : Bool := c = '.' || c = '!' || c = '?' || c = '\n'

/-- Worker for `splitSentences`. -/
def splitSentGo : List Char → List Char → List String
  | [], acc => [String.mk acc.reverse]
  | c :: cs, acc =>
    if isSentSep c then String.mk acc.reverse :: splitSentGo cs []
    else splitSentGo cs (c :: acc)

/-- Python `re.split(r'[.!?\n]', s)`: split at each separator, empties kept. -/
def splitSentences (s : String) : List String := splitSentGo s.data []

/-- Python truthiness of an optional string (`None` and `""` are falsy). -/
def pyTruthyStr : Option String → Bool
  | none => false
  | some s => !(s == "")

/-- Python truthiness of an optional list (`None` and `[]` are falsy). -/
def pyTruthyList : Option (List String) → Bool
  | none => false
  | some l => !l.isEmpty

/-- Python `l[-o:]` for a list: for `o = 0` this is the WHOLE list
(`l[-0:] = l[0:]`), otherwise the trailing `min o (length l)` elements. -/
def pyNegSlice (l : List String) (o : Nat) : List String :=
  if o = 0 then l else l.drop (l.length - o)

/-- Sum of the lengths of a list of strings
(`sum(len(x) for x in l)` — newline separators not counted). -/
def sumLen : List String → Nat
  | [] => 0
  | s :: t => s.length + sumLen t

/-! ### Chunk drafts (`DocumentService._chunk_*`) -/

/-- A chunk draft as produced by the chunkers of `DocumentService`
(the dicts with keys text/start_line/end_line/language/intent). -/
structure Snippet where
  text : String
  start_line : Nat
  end_line : Nat
  language : String
  intent : String
deriving Repr, DecidableEq

/-- A plain-text chunk before its lines are joined into text;
`DocumentService._chunk_text` materialises `text = "\n".join(lines)`
at flush time, recorded here by `chunkText` below. -/
structure LChunk where
  lines : List String
  start_line : Nat
  end_line : Nat
deriving Repr, DecidableEq

/-- The loop of `DocumentService._chunk_text`: `cur`/`size`/`start` are
`current_chunk`/`current_size`/`start_line`; `i` is the 1-based number of
the next line.  On overflow the chunk is flushed and the next chunk is
seeded with `current_chunk[-overlap:]`. -/
def chunkTextAux (maxSize overlap : Nat) :
    List String → List String → Nat → Nat → Nat → List LChunk
  | [], cur, _, start, i => if cur.isEmpty then [] else [⟨cur, start, i - 1⟩]
  | line :: rest, cur, size, start, i =>
    if maxSize < size + line.length ∧ cur ≠ [] then
      ⟨cur, start, i - 1⟩ ::
        chunkTextAux maxSize overlap rest (pyNegSlice cur overlap ++ [line])
          (sumLen (pyNegSlice cur overlap) + line.length)
          (i - (pyNegSlice cur overlap).length) (i + 1)
    else
      chunkTextAux maxSize overlap rest (cur ++ [line]) (size + line.length) start (i + 1)

/-- Model of `DocumentService._chunk_text`, at the level of line lists. -/
def chunkTextL (content : String) (maxSize overlap : Nat) : List LChunk :=
  chunkTextAux maxSize overlap (splitNL content) [] 0 1 1

/-- Model of `DocumentService._chunk_text`. -/
def chunkText (content : String) (maxSize overlap : Nat) : List Snippet :=
  (chunkTextL content maxSize overlap).map
    (fun c => ⟨String.intercalate "\n" c.lines, c.start_line, c.end_line, "plain", "text"⟩)

/-- Model of `DocumentService._detect_code_intent` (first match wins). -/
def detectCodeIntent (code language : String) : String :=
  let cl := pyLower code
  if strHasSub cl "test" || strHasSub cl "spec" then "test"
  else if strHasSub cl "config" || strHasSub cl "settings" then "config"
  else if strHasSub cl "class " then "class"
  else if strHasSub cl "def " || strHasSub cl "function " then "function"
  else if strHasSub cl "interface " || strHasSub cl "type " then "type"
  else if strHasSub cl "route" || strHasSub cl "endpoint" then "endpoint"
  else if strHasSub cl "query" || strHasSub cl "select" then "query"
  else "utility"

/-- The per-language definition-start patterns of `DocumentService._chunk_code`;
each regex is an anchored alternation of literal starts, so it is the list of
admissible leading strings of the (stripped) line. -/
def codeDefPattern (language : String) : Option (List String) :=
  if language == "python" then some ["def ", "class ", "async def "]
  else if language == "javascript" || language == "typescript" then
    some ["function ", "const ", "let ", "class ", "async "]
  else if language == "go" then some ["func ", "type ", "package "]
  else if language == "rust" then some ["fn ", "struct ", "enum ", "impl "]
  else none

/-- Model of `re.match(pattern, line.strip())` for the alternation patterns above. -/
def matchesAny (alts : List String) (s : String) : Bool :=
  alts.any (fun p => pyStartsWith s p)

/-- The definition-splitting loop of `DocumentService._chunk_code`
(`current_size` is tracked by the source but never read, so it is omitted). -/
def chunkCodeAux (language : String) (alts : List String) :
    List String → List String → Nat → Nat → List Snippet
  | [], cur, start, i =>
    if cur.isEmpty then []
    else
      [⟨String.intercalate "\n" cur, start, i - 1, language,
        detectCodeIntent (String.intercalate "\n" cur) language⟩]
  | line :: rest, cur, start, i =>
    if matchesAny alts (pyStrip line) ∧ cur ≠ [] then
      ⟨String.intercalate "\n" cur, start, i - 1, language,
        detectCodeIntent (String.intercalate "\n" cur) language⟩ ::
        chunkCodeAux language alts rest [line] i (i + 1)
    else
      chunkCodeAux language alts rest (cur ++ [line]) start (i + 1)

/-- First pass of `DocumentService._chunk_code`: split by definition starts
when the language has a pattern, plain chunking otherwise. -/
def chunkCodeFirst (content language : String) (maxSize overlap : Nat) : List Snippet :=
  match codeDefPattern language with
  | some alts => chunkCodeAux language alts (splitNL content) [] 1 1
  | none => chunkText content maxSize overlap

/-- Model of `DocumentService._chunk_code` including the size-based second pass:
any chunk whose text exceeds `maxSize` is re-chunked with `_chunk_text`,
the sub-chunks inheriting the parent's span, language and intent. -/
def chunkCode (content language : String) (maxSize overlap : Nat) : List Snippet :=
  (chunkCodeFirst content language maxSize overlap).flatMap
    (fun chunk =>
      if maxSize < chunk.text.length then
        (chunkText chunk.text maxSize overlap).map
          (fun sc => ⟨sc.text, chunk.start_line, chunk.end_line, chunk.language, chunk.intent⟩)
      else [chunk])

/-- Worker for `mdUnits`: cut the content into its lines, each keeping its
trailing newline (a final line without a newline is kept bare). -/
def mdUnitsGo : List Char → List Char → List String
  | [], acc => if acc.isEmpty then [] else [String.mk acc.reverse]
  | c :: cs, acc =>
    if c = '\n' then String.mk (c :: acc).reverse :: mdUnitsGo cs []
    else mdUnitsGo cs (c :: acc)

/-- The newline-terminated lines of a string. -/
def mdUnits (s : String) : List String := mdUnitsGo s.data []

/-- Whether a newline-terminated line matches the heading separator regex
`^#+ .+$\n` of `DocumentService._chunk_markdown`: one or more `#`, a space,
then at least one further character, then the line's newline. -/
def isHeadingUnit (u : String) : Bool :=
  match u.data.getLast? with
  | some '\n' =>
    let core := u.data.dropLast
    let hashes := core.takeWhile (fun c => c = '#')
    let rest := core.drop hashes.length
    !hashes.isEmpty &&
      (match rest with
       | ' ' :: r => !r.isEmpty
       | _ => false)
  | _ => false

/-- Worker for `mdSegments`: gaps between heading lines are concatenated;
headings are kept as their own (captured) pieces. -/
def mdSegmentsGo : List String → String → List String
  | [], gap => [gap]
  | u :: us, gap =>
    if isHeadingUnit u then gap :: u :: mdSegmentsGo us ""
    else mdSegmentsGo us (gap ++ u)

/-- Python `re.split(r'(^#+ .+$\n)', content, flags=re.MULTILINE)`:
alternating gap / heading / gap / ... pieces, empty gaps included. -/
def mdSegments (content : String) : List String := mdSegmentsGo (mdUnits content) ""

/-- Flushing a markdown section: `"".join(current_section)`, emitted only
when it is nonempty after stripping. -/
def mdFlush (sec : List String) : List Snippet :=
  let t := String.join sec
  if pyStrip t == "" then [] else [⟨t, 1, 1, "markdown", "section"⟩]

/-- The section loop of `DocumentService._chunk_markdown`. -/
def chunkMarkdownGo (maxSize overlap : Nat) : List String → List String → Nat → List Snippet
  | [], sec, _ => mdFlush sec
  | s :: rest, sec, size =>
    if pyStartsWith s "#" then
      mdFlush sec ++ chunkMarkdownGo maxSize overlap rest [s] s.length
    else
      if maxSize < size + s.length ∧ sec ≠ [] then
        mdFlush sec ++
          chunkMarkdownGo maxSize overlap rest
            [String.join (pyNegSlice sec overlap), s]
            ((String.join (pyNegSlice sec overlap)).length + s.length)
      else
        chunkMarkdownGo maxSize overlap rest (sec ++ [s]) (size + s.length)

/-- Model of `DocumentService._chunk_markdown`. -/
def chunkMarkdown (content : String) (maxSize overlap : Nat) : List Snippet :=
  chunkMarkdownGo maxSize overlap (mdSegments content) [] 0

/-- The content types of `app/models.py` (`ContentType`). -/
inductive ContentType where
  | code
  | markdown
  | plain
deriving Repr, DecidableEq

/-- Model of `ContentType.value`. -/
def ContentType.val : ContentType → String
  | .code => "code"
  | .markdown => "markdown"
  | .plain => "plain"

/-- Model of `DocumentService._chunk_content`. -/
def chunkContent (content : String) (ct : ContentType) (language : String)
    (maxSize overlap : Nat) : List Snippet :=
  match ct with
  | .code => chunkCode content language maxSize overlap
  | .markdown => chunkMarkdown content maxSize overlap
  | .plain => chunkText content maxSize overlap

/-! ### Data model (`app/database.py` rows and `app/models.py`) -/

/-- A row of the `documents` table, restricted to the fields the search and
ingestion paths read; `tags` is kept structured (the JSON round-trip through
the `tags` column is the identity on tag lists). -/
structure DocRec where
  id : Nat
  file_path : String
  content_hash : String
  title : String
  content_type : String
  language : String
  summary : String
  tags : Option (List String)
  category : Option String
deriving Repr, DecidableEq

/-- A row of the `code_snippets` table. -/
structure SnippetRow where
  id : Nat
  document_id : Nat
  chunk_text : String
  start_line : Nat
  end_line : Nat
  language : String
  intent : String
deriving Repr, DecidableEq

/-- One embedding submission (`EmbeddingService.index_document` upsert for
one chunk): the composite id, the chunk text and the metadata bag. -/
structure EmbedSubmission where
  chunk_id : String
  doc_id : Nat
  text : String
  file_path : String
  language : String
  intent : String
deriving Repr, DecidableEq

/-- The mutable state touched by `DocumentService`: the relational store
(documents and snippet rows with their autoincrement counters) plus the log
of embedding upserts made so far (the vector store contents). -/
structure SysState where
  documents : List DocRec
  snippets : List SnippetRow
  vectorEntries : List EmbedSubmission
  nextDocId : Nat
  nextSnippetId : Nat
deriving Repr, DecidableEq

/-- Model of `db.get_document` (the fields used by the services). -/
def dbGetDocument (st : SysState) (docId : Nat) : Option DocRec :=
  st.documents.find? (fun d => d.id == docId)

/-- Model of `db.get_document_by_path`. -/
def dbGetDocumentByPath (st : SysState) (path : String) : Option DocRec :=
  st.documents.find? (fun d => d.file_path == path)

/-- The filter predicate of `db.list_documents` (SQL equality against each
truthy filter; `NULL` never equals a filter string). -/
def docMatchesFilters (ct language category : Option String) (d : DocRec) : Bool :=
  (match ct with
   | some s => if s == "" then true else d.content_type == s
   | none => true) &&
  (match language with
   | some s => if s == "" then true else d.language == s
   | none => true) &&
  (match category with
   | some s => if s == "" then true else d.category == some s
   | none => true)

/-- Model of `db.list_documents(page=1, page_size, ...)`: the first page of the
filtered documents, in listing order. -/
def dbListDocuments (st : SysState) (pageSize : Nat)
    (ct language category : Option String) : List DocRec :=
  (st.documents.filter (docMatchesFilters ct language category)).take pageSize

/-! ### Search (`app/services/search.py` and `EmbeddingService.search`) -/

/-- A raw ChromaDB hit: id, stored chunk text, the `doc_id` metadata entry
(which may be missing), and the cosine distance. -/
structure RawHit where
  chunk_id : String
  chunk_text : String
  doc_id : Option Nat
  distance : ℚ
deriving Repr, DecidableEq

/-- A formatted neighbor as returned by `EmbeddingService.search`. -/
structure Neighbor where
  chunk_id : String
  chunk_text : String
  doc_id : Option Nat
  similarity : ℚ
deriving Repr, DecidableEq

/-- The metadata filters built by `SearchService.search` for the vector
store (`language` / `category`, added only when truthy). -/
def mkVecFilters (language category : Option String) : List (String × String) :=
  (if pyTruthyStr language then [("language", language.getD "")] else []) ++
  (if pyTruthyStr category then [("category", category.getD "")] else [])

/-- The ChromaDB `collection.query` boundary: an oracle from
(query, n_results, where-filters) to ranked raw hits. -/
def VecOracle : Type := String → Nat → Option (List (String × String)) → List RawHit

/-- Python `min_similarity or settings.min_similarity_threshold`
(`None` and `0.0` are falsy). -/
def effectiveMinSim (minSim : Option ℚ) (defaultMinSim : ℚ) : ℚ :=
  match minSim with
  | none => defaultMinSim
  | some x => if x = 0 then defaultMinSim else x

/-- Model of `EmbeddingService.search`: blank queries short-circuit to no results;
otherwise each raw hit is converted (`similarity = 1 - distance`) and kept
only when `similarity >= min_sim`. -/
def embSearch (oracle : VecOracle) (defaultMinSim : ℚ) (query : String)
    (limit : Nat) (minSim : Option ℚ) (filters : Option (List (String × String))) :
    List Neighbor :=
  if pyStrip query == "" then []
  else
    let minS := effectiveMinSim minSim defaultMinSim
    (oracle query limit filters).filterMap
      (fun r =>
        if minS ≤ 1 - r.distance then
          some ⟨r.chunk_id, r.chunk_text, r.doc_id, 1 - r.distance⟩
        else none)

/-- A `SearchResult` (`app/models.py`); the document response is the
database record (snippet attachment is read-only and not modelled). -/
structure SearchResult where
  document : DocRec
  snippet : String
  similarity : ℚ
  highlights : List String
deriving Repr, DecidableEq

/-- Model of `SearchService._extract_highlights`: sentences (split on `[.!?\n]`)
containing at least one query term, truncated at 200 characters, first 3. -/
def extractHighlights (text query : String) : List String :=
  if text == "" || query == "" then []
  else
    let terms := pySplitWs (pyLower query)
    let sentences := splitSentences text
    ((sentences.filterMap
      (fun s0 =>
        let s := pyStrip s0
        if s == "" then none
        else if terms.any (fun t => strHasSub (pyLower s) t) then
          some (if 200 < s.length then s.take 200 ++ "..." else s)
        else none)).take 3)

/-- The search result built for one kept semantic neighbor. -/
def mkSemanticResult (n : Neighbor) (doc : DocRec) (query : String) : SearchResult :=
  ⟨doc, n.chunk_text, n.similarity, extractHighlights n.chunk_text query⟩

/-- The neighbor loop of `SearchService.semantic_search`: skip falsy or
already-seen `doc_id`s and unresolvable documents, keep the first neighbor
per document, stop as soon as `limit` results are collected. -/
def semanticCollect (st : SysState) (query : String) (limit : Nat) :
    List Neighbor → List Nat → Nat → List SearchResult
  | [], _, _ => []
  | n :: rest, seen, cnt =>
    match n.doc_id with
    | none => semanticCollect st query limit rest seen cnt
    | some did =>
      if did = 0 ∨ did ∈ seen then semanticCollect st query limit rest seen cnt
      else
        match dbGetDocument st did with
        | none => semanticCollect st query limit rest seen cnt
        | some doc =>
          if limit ≤ cnt + 1 then [mkSemanticResult n doc query]
          else mkSemanticResult n doc query ::
            semanticCollect st query limit rest (did :: seen) (cnt + 1)

/-- Model of `SearchService.semantic_search`: ask the vector store for `2 * limit`
neighbors, then resolve, deduplicate and truncate. -/
def semanticSearch (st : SysState) (oracle : VecOracle) (defaultMinSim : ℚ)
    (query : String) (limit : Nat) (minSim : Option ℚ)
    (filters : Option (List (String × String))) : List SearchResult :=
  semanticCollect st query limit
    (embSearch oracle defaultMinSim query (limit * 2) minSim filters) [] 0

/-- The candidate loop of `SearchService.keyword_search`: a document matches
when the lower-cased query occurs in the lower-cased join of its path, title
and summary; matches get similarity `1.0`, the raw query as their single
highlight and the summary's first 200 characters as snippet. -/
def keywordCollect (query ql : String) (limit : Nat) :
    List DocRec → Nat → List SearchResult
  | [], _ => []
  | doc :: rest, cnt =>
    if strHasSub (pyLower (String.intercalate " " [doc.file_path, doc.title, doc.summary])) ql then
      if limit ≤ cnt + 1 then [⟨doc, doc.summary.take 200, 1, [query]⟩]
      else ⟨doc, doc.summary.take 200, 1, [query]⟩ :: keywordCollect query ql limit rest (cnt + 1)
    else keywordCollect query ql limit rest cnt

/-- Model of `SearchService.keyword_search` (`page_size = 100`). -/
def keywordSearch (st : SysState) (query : String) (limit : Nat)
    (ct language category : Option String) : List SearchResult :=
  keywordCollect query (pyLower query) limit (dbListDocuments st 100 ct language category) 0

/-- Model of `SearchRequest` (`app/models.py`). -/
structure SearchRequest where
  query : String
  limit : Nat
  min_similarity : Option ℚ
  content_type : Option ContentType
  language : Option String
  tags : Option (List String)
  category : Option String
deriving Repr, DecidableEq

/-- The trailing filter of `SearchService.search`: when `content_type` or
`tags` was specified, drop results with a differing content type, and drop
results whose document has a truthy tag set disjoint from the request's. -/
def searchPostFilter (req : SearchRequest) (results : List SearchResult) : List SearchResult :=
  if req.content_type.isSome || pyTruthyList req.tags then
    results.filter
      (fun r =>
        (match req.content_type with
         | some ct => r.document.content_type == ct.val
         | none => true) &&
        (if pyTruthyList req.tags && pyTruthyList r.document.tags then
          (r.document.tags.getD []).any (fun tag => (req.tags.getD []).contains tag)
         else true))
  else results

/-- The `filters if filters else None` argument `SearchService.search`
passes to the semantic stage. -/
def reqVecFilters (req : SearchRequest) : Option (List (String × String)) :=
  let filters := mkVecFilters req.language req.category
  if filters.isEmpty then none else some filters

/-- Model of `SearchService.search`: semantic first, keyword fallback on zero
semantic results, then the post-filter. -/
def searchModel (st : SysState) (oracle : VecOracle) (defaultMinSim : ℚ)
    (req : SearchRequest) : List SearchResult :=
  let results := semanticSearch st oracle defaultMinSim req.query req.limit
    req.min_similarity (reqVecFilters req)
  let results :=
    if results.isEmpty then
      keywordSearch st req.query req.limit (req.content_type.map ContentType.val)
        req.language req.category
    else results
  searchPostFilter req results

/-! ### Ingestion (`DocumentService.create_document` and helpers) -/

/-- Worker splitting on an arbitrary separator character. -/
def splitCharGo (sep : Char) : List Char → List Char → List String
  | [], acc => [String.mk acc.reverse]
  | c :: cs, acc =>
    if c = sep then String.mk acc.reverse :: splitCharGo sep cs []
    else splitCharGo sep cs (c :: acc)

/-- The final component of a path (`pathlib.Path(p).name`, POSIX flavour). -/
def pathName (p : String) : String := (splitCharGo '/' p.data []).getLastD ""

/-- Model of `pathlib.Path(p).suffix`: from the last dot of the name, provided that
dot is neither the first nor the last character of the name. -/
def pathSuffix (p : String) : String :=
  let name := (pathName p).data
  match name.reverse.findIdx? (fun c => c = '.') with
  | none => ""
  | some k =>
    if 1 ≤ k ∧ k + 1 < name.length then String.mk ((name.reverse.take (k + 1)).reverse)
    else ""

/-- Model of `pathlib.Path(p).stem`. -/
def pathStem (p : String) : String :=
  (pathName p).dropRight (pathSuffix p).length

/-- Non-overlapping occurrences of `needle` in a character list, scanning
left to right (how both `re.findall` and `str.count` consume matches). -/
def countSubAux (needle : List Char) : List Char → Nat
  | [] => 0
  | c :: cs =>
    if listIsPre needle (c :: cs) then 1 + countSubAux needle (cs.drop (needle.length - 1))
    else countSubAux needle cs
termination_by l => l.length
decreasing_by
  · simp only [List.length_drop, List.length_cons]; omega
  · simp only [List.length_cons]; omega

/-- Model of `len(re.findall(r'```[\s\S]*?```', content))`: the non-greedy pairs of
fences consume `` ``` `` markers two at a time, left to right. -/
def countCodeBlocks (content : String) : Nat :=
  countSubAux "```".data content.data / 2

/-- The extension → language table of `DocumentService.LANGUAGE_MAP`. -/
def languageFor (ext : String) : String :=
  (([(".py", "python"), (".js", "javascript"), (".ts", "typescript"),
     (".jsx", "javascript"), (".tsx", "typescript"), (".json", "json"),
     (".yaml", "yaml"), (".yml", "yaml"), (".toml", "toml"), (".sql", "sql"),
     (".sh", "shell"), (".bash", "shell"), (".go", "go"), (".rs", "rust"),
     (".java", "java"), (".c", "c"), (".cpp", "cpp"), (".h", "c"),
     (".html", "html"), (".css", "css"), (".scss", "scss"),
     (".md", "markdown"), (".txt", "plain")] : List (String × String)).lookup ext).getD "plain"

/-- Model of `DocumentService._detect_content_type`. -/
def detectContentType (filePath content : String) : ContentType × String :=
  let ext := pyLower (pathSuffix filePath)
  let language := languageFor ext
  if ext == ".md" then
    if 2 < countCodeBlocks content then (.code, language) else (.markdown, language)
  else if ([".py", ".js", ".ts", ".go", ".rs", ".java", ".sql", ".sh"] :
      List String).contains ext then (.code, language)
  else if ([".json", ".yaml", ".toml"] : List String).contains ext then (.code, language)
  else (.plain, language)

/-- Python `str.title()`. -/
def pyTitleGo : Bool → List Char → List Char
  | _, [] => []
  | prevCased, c :: cs =>
    if c.isAlpha then (if prevCased then c.toLower else c.toUpper) :: pyTitleGo true cs
    else c :: pyTitleGo false cs

/-- Python `str.title()` on a string. -/
def pyTitleCase (s : String) : String := String.mk (pyTitleGo false s.data)

/-- The first match of `re.search(r'^#\s+(.+)$', content, re.MULTILINE)`,
stripped: the first line made of `#`, a whitespace run, then at least one
more character (the group is the part after the greedy whitespace run, or
the last whitespace character when nothing follows it). -/
def findMdTitle (content : String) : Option String :=
  (splitNL content).findSome?
    (fun l =>
      match l.data with
      | '#' :: rest =>
        let ws := rest.takeWhile Char.isWhitespace
        if ws.isEmpty then none
        else
          let body := rest.drop ws.length
          if body.isEmpty then
            if 2 ≤ ws.length + 1 then some (pyStrip (String.mk [' '])) else none
          else some (pyStrip (String.mk body))
      | _ => none)

/-- Model of `DocumentService._extract_title`. -/
def extractTitle (filePath content : String) : String :=
  let fallback :=
    pyTitleCase (String.mk ((pathStem filePath).data.map
      (fun c => if c = '_' ∨ c = '-' then ' ' else c)))
  if pathSuffix filePath == ".md" then
    match findMdTitle content with
    | some t => t
    | none => fallback
  else fallback

/-- Model of `DocumentCreate` (`app/models.py`). -/
structure DocumentCreate where
  file_path : String
  content : String
  title : Option String
  content_type : Option ContentType
  language : Option String
deriving Repr, DecidableEq

/-- Model of `CategorizeResponse` (`app/models.py`): the categorizer collaborator's
answer, taken as an oracle. -/
structure CategorizeResponse where
  category : String
  tags : List String
  summary : String
  language : Option String
deriving Repr, DecidableEq

/-- Model of `DocumentService.delete_document`: remove the document's vector entries,
its snippet rows, then the document row. -/
def deleteDocumentState (st : SysState) (docId : Nat) : SysState :=
  { st with
    documents := st.documents.filter (fun d => d.id ≠ docId),
    snippets := st.snippets.filter (fun s => s.document_id ≠ docId),
    vectorEntries := st.vectorEntries.filter (fun e => e.doc_id ≠ docId) }

/-- ChromaDB `collection.upsert`: replace any entry with the same id. -/
def upsertVec (entries : List EmbedSubmission) (e : EmbedSubmission) : List EmbedSubmission :=
  entries.filter (fun x => x.chunk_id ≠ e.chunk_id) ++ [e]

/-- The per-chunk loop of `DocumentService.create_document`: insert one
snippet row and submit the chunk text to the vector store
(`index_document` is called with a one-element list, so every submission
uses chunk index 0). -/
def ingestChunks (filePath : String) (docId : Nat) : List Snippet → SysState → SysState
  | [], st => st
  | c :: rest, st =>
    let row : SnippetRow :=
      ⟨st.nextSnippetId, docId, c.text, c.start_line, c.end_line, c.language, c.intent⟩
    let e : EmbedSubmission :=
      ⟨"doc_" ++ toString docId ++ "_chunk_0", docId, c.text, filePath, c.language, c.intent⟩
    ingestChunks filePath docId rest
      { st with
        snippets := st.snippets ++ [row],
        vectorEntries := upsertVec st.vectorEntries e,
        nextSnippetId := st.nextSnippetId + 1 }

/-- The fresh-ingestion tail of `DocumentService.create_document`
(classification, title, categorization, document row, chunking, indexing). -/
def createDocumentFresh (categorize : String → CategorizeResponse)
    (maxSize overlap : Nat) (dc : DocumentCreate) (contentHash : String)
    (st : SysState) : SysState × Option DocRec :=
  let ctLang := detectContentType dc.file_path dc.content
  let ct := match dc.content_type with
    | some c => c
    | none => ctLang.1
  let language := match dc.language with
    | some s => if s == "" then ctLang.2 else s
    | none => ctLang.2
  let title := match dc.title with
    | some t => if t == "" then extractTitle dc.file_path dc.content else t
    | none => extractTitle dc.file_path dc.content
  let cat := categorize dc.content
  let docId := st.nextDocId
  let storedLanguage := if language == "" then (cat.language.getD "") else language
  let newDoc : DocRec :=
    ⟨docId, dc.file_path, contentHash, title, ct.val, storedLanguage, cat.summary,
      (if cat.tags.isEmpty then none else some cat.tags), some cat.category⟩
  let st1 := { st with documents := st.documents ++ [newDoc], nextDocId := docId + 1 }
  let chunks := chunkContent dc.content ct (if language == "" then "plain" else language)
    maxSize overlap
  let st2 := ingestChunks dc.file_path docId chunks st1
  (st2, dbGetDocument st2 docId)

/-- Model of `DocumentService.create_document`: content-addressed deduplication by
path — identical fingerprint returns the stored document untouched, a
differing fingerprint destroys and fully re-ingests. -/
def createDocument (hashFn : String → String) (categorize : String → CategorizeResponse)
    (maxSize overlap : Nat) (dc : DocumentCreate) (st : SysState) :
    SysState × Option DocRec :=
  let contentHash := hashFn dc.content
  match dbGetDocumentByPath st dc.file_path with
  | some existing =>
    if existing.content_hash == contentHash then (st, dbGetDocument st existing.id)
    else
      createDocumentFresh categorize maxSize overlap dc contentHash
        (deleteDocumentState st existing.id)
  | none => createDocumentFresh categorize maxSize overlap dc contentHash st

/-! ### Specification-side definition for the semantic dedup refinement

`specDedupByDoc` is written from the spec's words, not from the source:
"Deduplicate by `document_id`: the FIRST (highest-similarity) neighbor per
document wins; subsequent neighbors from the same document are discarded."
It is compared against `semanticCollect` below. -/

/-- First-occurrence-wins deduplication of a neighbor list by document id. -/
def specDedupByDoc : List Nat → List Neighbor → List Neighbor
  | _, [] => []
  | seen, n :: rest =>
    match n.doc_id with
    | some d =>
      if d ∈ seen then specDedupByDoc seen rest
      else n :: specDedupByDoc (d :: seen) rest
    | none => specDedupByDoc seen rest

/-! ### Concrete instances used by counterexamples and witnesses -/

/-- The spec's end-to-end chunking scenario content. -/
def c5Content : String := "def foo():\n    return 1\n\ndef bar():\n    return 2\n"

/-- Similarity 0.9 of the spec's semantic-dedup scenario. -/
def c1SimA : ℚ := 9 / 10

/-- Similarity 0.8 of the spec's semantic-dedup scenario. -/
def c1SimB : ℚ := 8 / 10

/-- Similarity 0.85 of the spec's semantic-dedup scenario. -/
def c1SimC : ℚ := 85 / 100

/-- Document 1 of the semantic-dedup scenario. -/
def c1Doc1 : DocRec := ⟨1, "d1", "h1", "T1", "plain", "plain", "S1", none, none⟩

/-- Document 2 of the semantic-dedup scenario. -/
def c1Doc2 : DocRec := ⟨2, "d2", "h2", "T2", "plain", "plain", "S2", none, none⟩

/-- Store holding the two documents of the semantic-dedup scenario. -/
def c1St : SysState := ⟨[c1Doc1, c1Doc2], [], [], 3, 1⟩

/-- The spec's neighbor list `[(doc=1,sim=0.9), (doc=1,sim=0.8), (doc=2,sim=0.85)]`. -/
def c1Ns : List Neighbor :=
  [⟨"a", "t1", some 1, c1SimA⟩, ⟨"b", "t2", some 1, c1SimB⟩, ⟨"c", "t3", some 2, c1SimC⟩]

/-- A descending-similarity neighbor list used as witness input. -/
def c1WNs : List Neighbor := [⟨"a", "t1", some 1, 1⟩, ⟨"b", "t2", some 2, 0⟩]

/-- A vector-store oracle with no indexed chunks. -/
def emptyOracle : VecOracle := fun _ _ _ => []

/-- A vector-store oracle holding one zero-distance chunk of document 1. -/
def nzOracle : VecOracle := fun _ _ _ => [⟨"id", "t", some 1, 0⟩]

/-- An empty system state. -/
def c2St : SysState := ⟨[], [], [], 1, 1⟩

/-- A plain search request with query `"q"`. -/
def c2Req : SearchRequest := ⟨"q", 10, none, none, none, none, none⟩

/-- A stored document for the idempotent re-ingest witness. -/
def c3Doc : DocRec := ⟨1, "a.txt", "h", "A", "plain", "plain", "S", none, none⟩

/-- State holding `c3Doc`. -/
def c3St : SysState := ⟨[c3Doc], [], [], 2, 1⟩

/-- A re-ingest of the same path. -/
def c3DC : DocumentCreate := ⟨"a.txt", "x", none, none, none⟩

/-- A fingerprint oracle mapping every content to the stored hash. -/
def c3HashFn : String → String := fun _ => "h"

/-- A constant categorizer oracle. -/
def c3Cat : String → CategorizeResponse := fun _ => ⟨"other", [], "", none⟩

/-- A document with no tags whose text matches the query `"hello"`. -/
def c8Doc : DocRec := ⟨1, "a.txt", "h", "hello world", "plain", "plain", "sum", none, none⟩

/-- State holding `c8Doc`. -/
def c8St : SysState := ⟨[c8Doc], [], [], 2, 1⟩

/-- A request for `"hello"` restricted to tag `"x"`. -/
def c8Req : SearchRequest := ⟨"hello", 10, none, none, none, some ["x"], none⟩

/-- A tagged document matching the query `"hello"`. -/
def c8bDoc : DocRec :=
  ⟨1, "a.txt", "h", "hello world", "plain", "plain", "sum", some ["x", "y"], none⟩

/-- State holding `c8bDoc`. -/
def c8bSt : SysState := ⟨[c8bDoc], [], [], 2, 1⟩

/-- A request for `"hello"` with both a content type and tags specified. -/
def c8bReq : SearchRequest := ⟨"hello", 10, none, some .plain, none, some ["x"], none⟩

/-- A document whose path/title/summary join is `"a b c"`. -/
def c10Doc : DocRec := ⟨1, "a", "h", "b", "plain", "plain", "c", none, none⟩

/-- State holding `c10Doc`. -/
def c10St : SysState := ⟨[c10Doc], [], [], 2, 1⟩

/-- A whitespace-only (two spaces) search request. -/
def c10Req : SearchRequest := ⟨"  ", 10, none, none, none, none, none⟩

/-! ### Claims -/

/-- C4: the spec claims that after the size-based second pass no code chunk
exceeds `max_size` characters for any `max_size ≥ 1`.  The code does not
enforce this: plain re-chunking never splits inside a line and does not
count newline separators, so for content `"ab"`, `max_size = 1` the unique
final chunk keeps both characters. -/
theorem claim_C4_size_bound_violated :
    chunkCode "ab" "python" 1 0 = [⟨"ab", 1, 1, "python", "utility"⟩] ∧
    ∀ c ∈ chunkCode "ab" "python" 1 0, 1 < c.text.length := by decide

/-- C5 counterexample: chunking the two-function Python file does NOT give
line spans 1–2 and 4–5; the blank separator line is attached to the
preceding chunk and the trailing newline yields a final empty line. -/
theorem claim_C5_counterexample :
    ¬ ((chunkCode c5Content "python" 1000 200).map (fun c => (c.start_line, c.end_line)) =
        [(1, 2), (4, 5)]) := by decide

/-- C5 amended: the scenario yields exactly 2 chunks, both Python with
intent "function", but spanning lines 1–3 and 4–6. -/
theorem claim_C5_amended :
    chunkCode c5Content "python" 1000 200 =
      [⟨"def foo():\n    return 1\n", 1, 3, "python", "function"⟩,
       ⟨"def bar():\n    return 2\n", 4, 6, "python", "function"⟩] := by decide

/-- C7 counterexample: plain-text chunking of the empty string does not
yield an empty chunk sequence (it yields one chunk with empty text). -/
theorem claim_C7_counterexample : ¬ (chunkText "" 1000 200 = []) := by decide

/-- C7 amended: markdown chunking of the empty string yields no chunks, but
plain-text and code chunking of the empty string yield exactly one chunk
whose text is empty, for every `max_size`, `overlap` and language. -/
theorem claim_C7_amended (maxSize overlap : Nat) (language : String) :
    chunkMarkdown "" maxSize overlap = [] ∧
    chunkText "" maxSize overlap = [⟨"", 1, 1, "plain", "text"⟩] ∧
    (chunkCode "" language maxSize overlap).map (fun c => c.text) = [""] := by
  have hseg : mdSegments "" = [""] := by decide
  have hnl : splitNL "" = [""] := by decide
  refine ⟨?_, ?_, ?_⟩
  · unfold chunkMarkdown
    rw [hseg]
    simp +decide [chunkMarkdownGo, mdFlush]
  · unfold chunkText chunkTextL
    rw [hnl]
    simp +decide [chunkTextAux]
  · unfold chunkCode chunkCodeFirst
    rcases hp : codeDefPattern language with _ | alts
    · unfold chunkText chunkTextL
      rw [hnl]
      simp +decide [chunkTextAux]
    · rw [hnl]
      have hic : String.intercalate "\n" [""] = "" := by decide
      simp +decide [chunkCodeAux, hic, String.length_empty]

/-- Every result the keyword loop produces has similarity `1.0` and the
raw query as its single highlight. -/
theorem keywordCollect_mem_props (query ql : String) (limit : Nat) :
    ∀ (docs : List DocRec) (cnt : Nat) (r : SearchResult),
      r ∈ keywordCollect query ql limit docs cnt →
      r.similarity = 1 ∧ r.highlights = [query] := by
  intro docs
  induction docs with
  | nil =>
    intro cnt r h
    simp [keywordCollect] at h
  | cons doc rest ih =>
    intro cnt r h
    rw [keywordCollect] at h
    split at h
    · split at h
      · simp at h
        subst h
        exact ⟨rfl, rfl⟩
      · rcases List.mem_cons.mp h with h1 | h1
        · subst h1
          exact ⟨rfl, rfl⟩
        · exact ih (cnt + 1) r h1
    · exact ih cnt r h

/-- C3: re-ingesting an identical `(path, content)` pair is an idempotent
no-op: when a document already exists at the path with the same stored
fingerprint, `create_document` returns the stored document and the state —
documents, snippet rows and vector entries — is completely unchanged. -/
theorem claim_C3_idempotent_reingest (hashFn : String → String)
    (categorize : String → CategorizeResponse) (maxSize overlap : Nat)
    (dc : DocumentCreate) (st : SysState) (existing : DocRec)
    (hfind : dbGetDocumentByPath st dc.file_path = some existing)
    (hhash : existing.content_hash = hashFn dc.content) :
    createDocument hashFn categorize maxSize overlap dc st =
      (st, dbGetDocument st existing.id) ∧
    (dbGetDocument st existing.id).isSome := by
  constructor
  · unfold createDocument
    rw [hfind]
    simp [hhash]
  · have hmem : existing ∈ st.documents := List.mem_of_find?_eq_some hfind
    simp only [dbGetDocument, List.find?_isSome]
    exact ⟨existing, hmem, by simp⟩

/-- C3 witness: a concrete store with one document, re-ingested with content
hashing to the stored fingerprint. -/
theorem claim_C3_witness :
    createDocument c3HashFn c3Cat 1000 200 c3DC c3St = (c3St, dbGetDocument c3St c3Doc.id) ∧
    (dbGetDocument c3St c3Doc.id).isSome :=
  claim_C3_idempotent_reingest c3HashFn c3Cat 1000 200 c3DC c3St c3Doc (by decide) rfl

/-- C2: the keyword stage runs exactly when the semantic stage returns zero
results (search returns the post-filtered keyword results then, and the
post-filtered semantic results otherwise, never consulting the keyword
stage), and every keyword result carries similarity `1.0` and a single
highlight equal to the raw query string. -/
theorem claim_C2_keyword_fallback (st : SysState) (oracle : VecOracle)
    (defaultMinSim : ℚ) (req : SearchRequest) :
    (semanticSearch st oracle defaultMinSim req.query req.limit req.min_similarity
        (reqVecFilters req) = [] →
      searchModel st oracle defaultMinSim req =
        searchPostFilter req (keywordSearch st req.query req.limit
          (req.content_type.map ContentType.val) req.language req.category)) ∧
    (semanticSearch st oracle defaultMinSim req.query req.limit req.min_similarity
        (reqVecFilters req) ≠ [] →
      searchModel st oracle defaultMinSim req =
        searchPostFilter req (semanticSearch st oracle defaultMinSim req.query req.limit
          req.min_similarity (reqVecFilters req))) ∧
    (∀ r ∈ keywordSearch st req.query req.limit (req.content_type.map ContentType.val)
        req.language req.category,
      r.similarity = 1 ∧ r.highlights = [req.query]) := by
  refine ⟨?_, ?_, ?_⟩
  · intro h
    simp only [searchModel]
    rw [h]
    simp
  · intro h
    simp only [searchModel]
    rw [if_neg (by simpa [List.isEmpty_iff] using h)]
  · intro r hr
    unfold keywordSearch at hr
    exact keywordCollect_mem_props req.query (pyLower req.query) req.limit _ 0 r hr

/-- C2 witness: with an empty vector index the semantic stage is empty and
search returns the post-filtered keyword results. -/
theorem claim_C2_witness :
    searchModel c2St emptyOracle 0 c2Req =
      searchPostFilter c2Req (keywordSearch c2St c2Req.query c2Req.limit
        (c2Req.content_type.map ContentType.val) c2Req.language c2Req.category) :=
  (claim_C2_keyword_fallback c2St emptyOracle 0 c2Req).1 (by decide)

/-- Membership in the post-filter's output constrains the document's
content type, and its tags only when the document's tag set is truthy. -/
theorem searchPostFilter_mem (req : SearchRequest) (results : List SearchResult)
    (r : SearchResult) (h : r ∈ searchPostFilter req results) :
    (∀ ct, req.content_type = some ct → r.document.content_type = ct.val) ∧
    (pyTruthyList req.tags = true → pyTruthyList r.document.tags = true →
      (r.document.tags.getD []).any (fun t => (req.tags.getD []).contains t) = true) := by
  unfold searchPostFilter at h
  split at h
  · rw [List.mem_filter] at h
    obtain ⟨-, hp⟩ := h
    rw [Bool.and_eq_true] at hp
    obtain ⟨hct, htg⟩ := hp
    constructor
    · intro ct hcteq
      rw [hcteq] at hct
      exact eq_of_beq hct
    · intro h1 h2
      rw [h1, h2] at htg
      simpa using htg
  · rename_i hcond
    constructor
    · intro ct hcteq
      exact absurd (by rw [hcteq]; simp) hcond
    · intro h1 _
      exact absurd (by rw [h1]; simp) hcond

/-- C8 counterexample: with `tags = ["x"]` requested, a document with NO
tags is returned by search rather than dropped — the tag post-filter only
applies when the document's tag set is truthy. -/
theorem claim_C8_counterexample :
    searchModel c8St emptyOracle 0 c8Req = [⟨c8Doc, "sum", 1, ["hello"]⟩] ∧
    c8Doc.tags = none ∧ pyTruthyList c8Req.tags = true := by decide

/-- C8 amended: every result search returns has the requested content type
when one was specified, and, when tags were requested AND the result's
document has a truthy tag set, that tag set intersects the requested tags;
documents with no tags pass the tag filter. -/
theorem claim_C8_amended (st : SysState) (oracle : VecOracle) (defaultMinSim : ℚ)
    (req : SearchRequest) (r : SearchResult)
    (h : r ∈ searchModel st oracle defaultMinSim req) :
    (∀ ct, req.content_type = some ct → r.document.content_type = ct.val) ∧
    (pyTruthyList req.tags = true → pyTruthyList r.document.tags = true →
      (r.document.tags.getD []).any (fun t => (req.tags.getD []).contains t) = true) := by
  simp only [searchModel] at h
  exact searchPostFilter_mem req _ r h

/-- C8 witness: a tagged document matching both requested content type and
requested tags. -/
theorem claim_C8_witness :
    (∀ ct, c8bReq.content_type = some ct →
      (⟨c8bDoc, "sum", 1, ["hello"]⟩ : SearchResult).document.content_type = ct.val) ∧
    (pyTruthyList c8bReq.tags = true →
      pyTruthyList (⟨c8bDoc, "sum", 1, ["hello"]⟩ : SearchResult).document.tags = true →
      ((⟨c8bDoc, "sum", 1, ["hello"]⟩ : SearchResult).document.tags.getD []).any
        (fun t => (c8bReq.tags.getD []).contains t) = true) :=
  claim_C8_amended c8bSt emptyOracle 0 c8bReq ⟨c8bDoc, "sum", 1, ["hello"]⟩ (by decide)

/-- The empty string is a Python-substring of every string. -/
theorem strHasSub_empty (s : String) : strHasSub s "" = true := by
  unfold strHasSub
  have hd : ("" : String).data = [] := rfl
  rw [hd]
  cases s.data with
  | nil => rfl
  | cons c cs => simp [listHasSub, listIsPre]

/-- With an empty query every candidate matches, so the keyword loop
returns the first `limit - cnt` candidates. -/
theorem keywordCollect_empty_query (limit : Nat) :
    ∀ (docs : List DocRec) (cnt : Nat), cnt < limit →
      keywordCollect "" "" limit docs cnt =
        (docs.take (limit - cnt)).map
          (fun d => ⟨d, d.summary.take 200, 1, [""]⟩) := by
  intro docs
  induction docs with
  | nil =>
    intro cnt h
    simp [keywordCollect]
  | cons doc rest ih =>
    intro cnt hcnt
    rw [keywordCollect, if_pos (strHasSub_empty _)]
    by_cases hl : limit ≤ cnt + 1
    · rw [if_pos hl]
      have h1 : limit - cnt = 1 := by omega
      rw [h1]
      simp
    · rw [if_neg hl]
      rw [ih (cnt + 1) (by omega)]
      have h1 : limit - cnt = (limit - (cnt + 1)) + 1 := by omega
      rw [h1, List.take_succ_cons]
      simp

/-- C10 counterexample: for the whitespace-only query `"  "` search returns
nothing although one candidate document exists — `"  "` is not a substring
of the candidate's joined path/title/summary `"a b c"`. -/
theorem claim_C10_counterexample :
    searchModel c10St nzOracle 0 c10Req = [] ∧
    c10St.documents = [c10Doc] ∧
    keywordSearch c10St "  " 10 none none none = [] := by decide

/-- C10 amended: any blank (empty or whitespace-only) query bypasses the
semantic stage entirely and search reduces to the post-filtered keyword
stage; for the EMPTY query specifically every candidate matches, so the
keyword stage returns the first `limit` filtered candidates, each with
similarity `1.0` and the empty string as single highlight. -/
theorem claim_C10_amended :
    (∀ (st : SysState) (oracle : VecOracle) (defaultMinSim : ℚ) (req : SearchRequest),
        pyStrip req.query = "" →
        semanticSearch st oracle defaultMinSim req.query req.limit req.min_similarity
            (reqVecFilters req) = [] ∧
        searchModel st oracle defaultMinSim req =
          searchPostFilter req (keywordSearch st req.query req.limit
            (req.content_type.map ContentType.val) req.language req.category)) ∧
    (∀ (st : SysState) (limit : Nat) (ct language category : Option String),
        1 ≤ limit →
        keywordSearch st "" limit ct language category =
          ((dbListDocuments st 100 ct language category).take limit).map
            (fun d => ⟨d, d.summary.take 200, 1, [""]⟩)) := by
  constructor
  · intro st oracle dms req hq
    have hsem : semanticSearch st oracle dms req.query req.limit req.min_similarity
        (reqVecFilters req) = [] := by
      unfold semanticSearch
      have hemb : embSearch oracle dms req.query (req.limit * 2) req.min_similarity
          (reqVecFilters req) = [] := by
        unfold embSearch
        rw [hq]
        simp
      rw [hemb]
      rfl
    refine ⟨hsem, ?_⟩
    simp only [searchModel]
    rw [hsem]
    simp
  · intro st limit ct language category hl
    unfold keywordSearch
    have hlow : pyLower "" = "" := rfl
    rw [hlow, keywordCollect_empty_query limit _ 0 (by omega)]
    simp

/-- C10 witness: the empty query on a one-document store returns that
document with similarity `1.0`, and the semantic stage is bypassed. -/
theorem claim_C10_witness :
    (semanticSearch c10St nzOracle 0 "" 10 none (reqVecFilters ⟨"", 10, none, none, none, none, none⟩) = [] ∧
      searchModel c10St nzOracle 0 ⟨"", 10, none, none, none, none, none⟩ =
        searchPostFilter ⟨"", 10, none, none, none, none, none⟩
          (keywordSearch c10St "" 10 none none none)) ∧
    keywordSearch c10St "" 10 none none none =
      ((dbListDocuments c10St 100 none none none).take 10).map
        (fun d => ⟨d, d.summary.take 200, 1, [""]⟩) :=
  ⟨claim_C10_amended.1 c10St nzOracle 0 ⟨"", 10, none, none, none, none, none⟩ rfl,
   claim_C10_amended.2 c10St 10 none none none (by decide)⟩

/-- The semantic collection loop equals first-wins dedup by document id
followed by truncation, provided every neighbor resolves to a stored
document with a truthy id. -/
theorem semanticCollect_eq_spec (st : SysState) (q : String) (limit : Nat) :
    ∀ (ns : List Neighbor) (seen : List Nat) (cnt : Nat), cnt < limit →
      (∀ n ∈ ns, ∃ d, n.doc_id = some d ∧ d ≠ 0 ∧ (dbGetDocument st d).isSome) →
      (semanticCollect st q limit ns seen cnt).map (fun r => (r.document.id, r.similarity)) =
        ((specDedupByDoc seen ns).take (limit - cnt)).map
          (fun n => (n.doc_id.getD 0, n.similarity)) := by
  intro ns
  induction ns with
  | nil =>
    intro seen cnt _ _
    simp [semanticCollect, specDedupByDoc]
  | cons n rest ih =>
    intro seen cnt hcnt hres
    obtain ⟨d, hd, hd0, hsome⟩ := hres n (List.mem_cons_self n rest)
    obtain ⟨doc, hdoc⟩ := Option.isSome_iff_exists.mp hsome
    have hdocid : doc.id = d := by
      have hpred := List.find?_some hdoc
      simpa using hpred
    have hres' : ∀ m ∈ rest, ∃ d', m.doc_id = some d' ∧ d' ≠ 0 ∧ (dbGetDocument st d').isSome :=
      fun m hm => hres m (List.mem_cons_of_mem n hm)
    simp only [semanticCollect, specDedupByDoc, hd]
    by_cases hmem : d ∈ seen
    · rw [if_pos (Or.inr hmem), if_pos hmem]
      exact ih seen cnt hcnt hres'
    · rw [if_neg (by simp [hd0, hmem]), if_neg hmem]
      simp only [hdoc]
      by_cases hl : limit ≤ cnt + 1
      · rw [if_pos hl]
        have h1 : limit - cnt = 1 := by omega
        rw [h1]
        simp [mkSemanticResult, hdocid, hd]
      · rw [if_neg hl]
        have h1 : limit - cnt = (limit - (cnt + 1)) + 1 := by omega
        rw [h1, List.take_succ_cons]
        simp only [List.map_cons]
        rw [ih (d :: seen) (cnt + 1) (by omega) hres']
        simp [mkSemanticResult, hdocid, hd]

/-- C1: over any descending-similarity neighbor list whose neighbors all
resolve, the semantic stage emits, in neighbor order, the first neighbor of
each distinct document with that neighbor's similarity, truncated at
`limit`; and on the spec's scenario `[(doc 1, 0.9), (doc 1, 0.8),
(doc 2, 0.85)]` with `limit = 2` it returns exactly document 1 at 0.9 then
document 2 at 0.85. -/
theorem claim_C1_semantic_dedup :
    (∀ (st : SysState) (q : String) (limit : Nat) (ns : List Neighbor),
        1 ≤ limit →
        List.Chain' (fun a b => b.similarity ≤ a.similarity) ns →
        (∀ n ∈ ns, ∃ d, n.doc_id = some d ∧ d ≠ 0 ∧ (dbGetDocument st d).isSome) →
        (semanticCollect st q limit ns [] 0).map (fun r => (r.document.id, r.similarity)) =
          ((specDedupByDoc [] ns).take limit).map (fun n => (n.doc_id.getD 0, n.similarity))) ∧
    semanticCollect c1St "q" 2 c1Ns [] 0 =
      [⟨c1Doc1, "t1", c1SimA, []⟩, ⟨c1Doc2, "t3", c1SimC, []⟩] := by
  constructor
  · intro st q limit ns hl _ hres
    have h := semanticCollect_eq_spec st q limit ns [] 0 (by omega) hres
    simpa using h
  · rfl

/-- C1 witness: a sorted, fully resolvable two-neighbor list. -/
theorem claim_C1_witness :
    (semanticCollect c1St "q" 2 c1WNs [] 0).map (fun r => (r.document.id, r.similarity)) =
      ((specDedupByDoc [] c1WNs).take 2).map (fun n => (n.doc_id.getD 0, n.similarity)) :=
  claim_C1_semantic_dedup.1 c1St "q" 2 c1WNs (by decide)
    (by simp [c1WNs])
    (by
      intro n hn
      rw [c1WNs] at hn
      rcases List.mem_cons.mp hn with h | h
      · exact h ▸ ⟨1, rfl, by decide, by decide⟩
      · rcases List.mem_cons.mp h with h2 | h2
        · exact h2 ▸ ⟨2, rfl, by decide, by decide⟩
        · exact absurd h2 (List.not_mem_nil n))

/-- Loop invariant of `chunkTextAux` over the full line list `A`: when
`cur` holds exactly the lines of `A` from `start` to `i - 1` and `rest` is
the remainder of `A` from line `i` on, every produced chunk's line list is
the slice of `A` from its `start_line` to its `end_line` (1-based,
inclusive), the bounds are well-formed, and start lines never decrease. -/
theorem chunkTextAux_spec (maxSize o : Nat) (A : List String) :
    ∀ (rest cur : List String) (size start i : Nat),
      rest = A.drop (i - 1) →
      cur = (A.take (i - 1)).drop (start - 1) →
      1 ≤ start → start ≤ i → i - 1 ≤ A.length →
      (∀ c ∈ chunkTextAux maxSize o rest cur size start i,
        c.lines = (A.take c.end_line).drop (c.start_line - 1) ∧
        start ≤ c.start_line ∧ 1 ≤ c.start_line ∧ c.start_line ≤ c.end_line ∧
        c.end_line ≤ A.length) ∧
      List.Chain' (fun a b => a.start_line ≤ b.start_line)
        (chunkTextAux maxSize o rest cur size start i) := by
  intro rest
  induction rest with
  | nil =>
    intro cur size start i hrest hcur hs1 hsi hiA
    have hlen : A.length ≤ i - 1 := by
      have hl := congrArg List.length hrest
      simp [List.length_drop] at hl
      omega
    rw [chunkTextAux]
    by_cases hc : cur.isEmpty
    · rw [if_pos hc]
      exact ⟨by simp, by simp⟩
    · rw [if_neg hc]
      have hcne : cur ≠ [] := by simpa [List.isEmpty_iff] using hc
      have hclen : cur.length = i - start := by
        rw [hcur]
        simp [List.length_drop, List.length_take]
        omega
      have h1 : 0 < cur.length := List.length_pos.mpr hcne
      constructor
      · intro c hcm
        simp only [List.mem_singleton] at hcm
        subst hcm
        refine ⟨by simpa using hcur, le_refl _, hs1, ?_, ?_⟩
        · show start ≤ i - 1
          omega
        · show i - 1 ≤ A.length
          omega
      · simp
  | cons line rtl ih =>
    intro cur size start i hrest hcur hs1 hsi hiA
    have hilen : i - 1 < A.length := by
      have hl := congrArg List.length hrest
      simp [List.length_drop] at hl
      omega
    have hi1 : i - 1 + 1 = i := by omega
    have hget : A[i - 1]? = some line := by
      rw [← List.head?_drop, ← hrest]
      rfl
    have htake : A.take i = A.take (i - 1) ++ [line] := by
      rw [← hi1, List.take_succ, hget]
      rfl
    have hdrop : rtl = A.drop i := by
      have h2 := List.tail_drop A (i - 1)
      rw [← hrest, hi1] at h2
      simpa using h2
    have hcurlen : cur.length = i - start := by
      rw [hcur]
      simp [List.length_drop, List.length_take]
      omega
    rw [chunkTextAux]
    by_cases hcond : maxSize < size + line.length ∧ cur ≠ []
    · rw [if_pos hcond]
      have hcne := hcond.2
      have h1 : 0 < cur.length := List.length_pos.mpr hcne
      obtain ⟨k, hkle, hovk⟩ :
          ∃ k, k ≤ cur.length ∧ pyNegSlice cur o = cur.drop k := by
        unfold pyNegSlice
        by_cases ho : o = 0
        · exact ⟨0, by omega, by rw [if_pos ho]; simp⟩
        · exact ⟨cur.length - o, by omega, by rw [if_neg ho]⟩
      have hovlen : (pyNegSlice cur o).length = cur.length - k := by
        rw [hovk, List.length_drop]
      have hstart' : i - (pyNegSlice cur o).length = start + k := by
        rw [hovlen]
        omega
      have hcur' : pyNegSlice cur o ++ [line] = (A.take i).drop (start + k - 1) := by
        rw [hovk, hcur, List.drop_drop, htake,
          List.drop_append_of_le_length (by simp [List.length_take]; omega),
          show start - 1 + k = start + k - 1 from by omega]
      rw [hstart']
      obtain ⟨IH1, IH2⟩ := ih (pyNegSlice cur o ++ [line])
        (sumLen (pyNegSlice cur o) + line.length) (start + k) (i + 1)
        (by simpa using hdrop) (by simpa using hcur')
        (by omega) (by omega) (by omega)
      constructor
      · intro c hcm
        rcases List.mem_cons.mp hcm with hceq | hcm2
        · subst hceq
          refine ⟨by simpa using hcur, le_refl _, hs1, ?_, ?_⟩
          · show start ≤ i - 1
            omega
          · show i - 1 ≤ A.length
            omega
        · obtain ⟨hln, hst, h1', hse, hel⟩ := IH1 c hcm2
          exact ⟨hln, by omega, h1', hse, hel⟩
      · rw [List.chain'_cons']
        refine ⟨?_, IH2⟩
        intro y hy
        have hst := (IH1 y (List.mem_of_mem_head? hy)).2.1
        show start ≤ y.start_line
        omega
    · rw [if_neg hcond]
      have hcur2 : cur ++ [line] = (A.take i).drop (start - 1) := by
        rw [hcur, htake,
          List.drop_append_of_le_length (by simp [List.length_take]; omega)]
      exact ih (cur ++ [line]) (size + line.length) start (i + 1)
        (by simpa using hdrop) (by simpa using hcur2) hs1 (by omega) (by omega)

/-- C9: every plain-text chunk is an exact line slice of the content: its
text is the newline-join of the content's lines from `start_line` through
`end_line` (1-based, inclusive), with `1 ≤ start_line ≤ end_line ≤` the
number of lines, and start lines are non-decreasing across the output. -/
theorem claim_C9_line_slices (content : String) (maxSize overlap : Nat) :
    (∀ c ∈ chunkText content maxSize overlap,
        c.text = String.intercalate "\n"
          (((splitNL content).take c.end_line).drop (c.start_line - 1)) ∧
        1 ≤ c.start_line ∧ c.start_line ≤ c.end_line ∧
        c.end_line ≤ (splitNL content).length) ∧
    List.Chain' (fun a b => a.start_line ≤ b.start_line)
      (chunkText content maxSize overlap) := by
  have H := chunkTextAux_spec maxSize overlap (splitNL content) (splitNL content)
    [] 0 1 1 (by simp) (by simp) (by omega) (by omega) (by omega)
  constructor
  · intro c hc
    unfold chunkText at hc
    rw [List.mem_map] at hc
    obtain ⟨lc, hlc, rfl⟩ := hc
    obtain ⟨h1, -, -, h4, h5⟩ := H.1 lc hlc
    exact ⟨by simp [h1], (H.1 lc hlc).2.2.1, h4, h5⟩
  · unfold chunkText
    rw [List.chain'_map]
    exact H.2

/-- C9 witness: the first chunk of chunking `"a\nb"` at `max_size = 1`. -/
theorem claim_C9_witness :
    (⟨"a", 1, 1, "plain", "text"⟩ : Snippet).text =
      String.intercalate "\n" (((splitNL "a\nb").take 1).drop 0) ∧
    1 ≤ 1 ∧ 1 ≤ 1 ∧ 1 ≤ (splitNL "a\nb").length :=
  (claim_C9_line_slices "a\nb" 1 1).1 ⟨"a", 1, 1, "plain", "text"⟩ (by decide)

/-- The seed-prefix invariant of `chunkTextAux`: the pending `cur` lines are
a prefix of the next emitted chunk, and consecutive emitted chunks are
linked by the Python seed slice `prev[-overlap:]` being a prefix of the
later chunk's lines. -/
theorem chunkTextAux_overlap (maxSize o : Nat) :
    ∀ (rest cur : List String) (size start i : Nat), cur ≠ [] →
      (∀ c, (chunkTextAux maxSize o rest cur size start i).head? = some c →
        cur <+: c.lines) ∧
      List.Chain' (fun a b => pyNegSlice a.lines o <+: b.lines)
        (chunkTextAux maxSize o rest cur size start i) := by
  intro rest
  induction rest with
  | nil =>
    intro cur size start i hcur
    rw [chunkTextAux, if_neg (by simpa [List.isEmpty_iff] using hcur)]
    constructor
    · intro c hc
      simp only [List.head?] at hc
      cases hc
      exact List.prefix_refl _
    · simp
  | cons line rtl ih =>
    intro cur size start i hcur
    rw [chunkTextAux]
    by_cases hcond : maxSize < size + line.length ∧ cur ≠ []
    · rw [if_pos hcond]
      obtain ⟨ihhead, ihchain⟩ := ih (pyNegSlice cur o ++ [line])
        (sumLen (pyNegSlice cur o) + line.length)
        (i - (pyNegSlice cur o).length) (i + 1) (by simp)
      constructor
      · intro c hc
        simp only [List.head?] at hc
        cases hc
        exact List.prefix_refl _
      · rw [List.chain'_cons']
        refine ⟨?_, ihchain⟩
        intro y hy
        have hpre := ihhead y hy
        show pyNegSlice cur o <+: y.lines
        exact (List.prefix_append (pyNegSlice cur o) [line]).trans hpre
    · rw [if_neg hcond]
      obtain ⟨ihhead, ihchain⟩ := ih (cur ++ [line]) (size + line.length) start (i + 1)
        (by simp)
      refine ⟨?_, ihchain⟩
      intro c hc
      exact (List.prefix_append cur [line]).trans (ihhead c hc)

/-- C6 counterexample: markdown chunks split at a heading boundary share no
overlap: the chunk after heading `# B` does not begin with the trailing
segment `body1` of the previous chunk, although `overlap = 1`. -/
theorem claim_C6_counterexample :
    (chunkMarkdown "# A\nbody1\n# B\nbody2" 1000 1).map (fun c => c.text) =
      ["# A\nbody1\n", "# B\nbody2"] ∧
    pyStartsWith "# B\nbody2" "body1" = false := by decide

/-- C6 amended: for PLAIN-TEXT chunking with `overlap ≥ 1`, every later
chunk begins with exactly the seeded slice of the earlier chunk — its
trailing `min overlap (number of lines)` lines; markdown chunks split at
heading boundaries carry no such overlap (see the counterexample). -/
theorem claim_C6_amended (content : String) (maxSize o : Nat) (ho : 1 ≤ o) :
    List.Chain'
      (fun a b => a.lines.drop (a.lines.length - o) <+: b.lines ∧
        (a.lines.drop (a.lines.length - o)).length = min o a.lines.length)
      (chunkTextL content maxSize o) := by
  have hps : ∀ l : List String, pyNegSlice l o = l.drop (l.length - o) := by
    intro l
    unfold pyNegSlice
    rw [if_neg (by omega)]
  have hchain : List.Chain' (fun a b => pyNegSlice a.lines o <+: b.lines)
      (chunkTextL content maxSize o) := by
    unfold chunkTextL
    cases hA : splitNL content with
    | nil =>
      rw [chunkTextAux]
      simp
    | cons line rtl =>
      rw [chunkTextAux, if_neg (by simp)]
      exact (chunkTextAux_overlap maxSize o rtl ([] ++ [line])
        (0 + line.length) 1 (1 + 1) (by simp)).2
  refine List.Chain'.imp ?_ hchain
  intro a b hab
  rw [hps a.lines] at hab
  refine ⟨hab, ?_⟩
  rw [List.length_drop]
  omega

/-- C6 witness: three short lines at `max_size = 5`, `overlap = 1` produce
three chunks, each consecutive pair sharing exactly the previous chunk's
last line. -/
theorem claim_C6_witness :
    List.Chain'
      (fun a b => a.lines.drop (a.lines.length - 1) <+: b.lines ∧
        (a.lines.drop (a.lines.length - 1)).length = min 1 a.lines.length)
      (chunkTextL "aaaa\nbbbb\ncccc" 5 1) :=
  claim_C6_amended "aaaa\nbbbb\ncccc" 5 1 (by decide)
